import Mathlib

/-
  Verification of the hvm (Hashi Version Manager) core against its
  natural-language specification.

  The Go source under src/cmd is shallowly embedded below:
  pure string manipulation is translated to Lean functions over
  `List Char` / `String`, the filesystem is an explicit association-list
  state, and the network is an explicit environment value.  External
  library behaviour (go-getter download verification) is modelled from
  the specification and marked as such.
-/

namespace Hvm

/- Character-level helpers mirroring the Go standard library functions the
   source uses (strings.TrimPrefix, strings.Trim with cutset "./").
   They are written over `List Char` with structural recursion so that the
   kernel can evaluate them on concrete inputs. -/

def isPrefixList : List Char → List Char → Bool
  | [], _ => true
  | _ :: _, [] => false
  | a :: as, b :: bs => a == b && isPrefixList as bs

/-- Go strings.TrimPrefix: drop `pre` from the front of `s` when it is a
prefix, otherwise return `s` unchanged. -/
def trimPrefixS (s pre : String) : String :=
  if isPrefixList pre.toList s.toList then ⟨s.toList.drop pre.toList.length⟩ else s

def isDotSlash (c : Char) : Bool := c == '.' || c == '/'

/-- Go strings.Trim(s, "./"): remove all leading and trailing characters
belonging to the cutset consisting of the dot and the slash. -/
def trimDotSlash (s : String) : String :=
  ⟨((s.toList.dropWhile isDotSlash).reverse.dropWhile isDotSlash).reverse⟩

/-- Exact-equality membership in a list of strings, written as the Go
range-and-compare loop in ValidateVersion is written. -/
def memberS (v : String) : List String → Bool
  | [] => false
  | n :: ns => if v = n then true else memberS v ns

/- ### go-version model

The source calls github.com/hashicorp/go-version to parse version strings
and to check the single constraint ">= 0.7.0-beta1".  The fragment below
embeds go-version comparison on the version shapes that occur in release
manifests: dotted numeric segments with an optional prerelease after the
first dash (build metadata after a plus sign is ignored, as go-version
ignores it for comparison). -/

def splitOnChar (sep : Char) : List Char → List (List Char)
  | [] => [[]]
  | c :: cs =>
    let r := splitOnChar sep cs
    if c == sep then [] :: r
    else
      match r with
      | [] => [[c]]
      | g :: gs => (c :: g) :: gs

def isNumericId (cs : List Char) : Bool := !cs.isEmpty && cs.all (·.isDigit)

def digitsVal (cs : List Char) : Nat := cs.foldl (fun a c => a * 10 + (c.toNat - 48)) 0

def cmpNat (a b : Nat) : Ordering :=
  if a < b then .lt else if b < a then .gt else .eq

/-- Segment-wise comparison of the dotted numeric cores, with missing
segments reading as zero (go-version pads short versions with zeros). -/
def cmpSegs : List Nat → List Nat → Ordering
  | [], [] => .eq
  | [], b :: bs => if (b :: bs).all (· == 0) then .eq else .lt
  | a :: as, [] => if (a :: as).all (· == 0) then .eq else .gt
  | a :: as, b :: bs =>
    match cmpNat a b with
    | .eq => cmpSegs as bs
    | o => o

def cmpCharList : List Char → List Char → Ordering
  | [], [] => .eq
  | [], _ :: _ => .lt
  | _ :: _, [] => .gt
  | a :: as, b :: bs =>
    match cmpNat a.toNat b.toNat with
    | .eq => cmpCharList as bs
    | o => o

/-- Semver prerelease identifier comparison as go-version performs it:
numeric identifiers compare numerically and sort before alphanumeric
ones; alphanumeric identifiers compare in ASCII order. -/
def cmpPreId (x y : List Char) : Ordering :=
  if isNumericId x then
    if isNumericId y then cmpNat (digitsVal x) (digitsVal y) else .lt
  else if isNumericId y then .gt
  else cmpCharList x y

def cmpPreList : List (List Char) → List (List Char) → Ordering
  | [], [] => .eq
  | [], _ :: _ => .lt
  | _ :: _, [] => .gt
  | x :: xs, y :: ys =>
    match cmpPreId x y with
    | .eq => cmpPreList xs ys
    | o => o

/-- An absent prerelease ranks above any present prerelease; two present
prereleases compare identifier-by-identifier on their dot-split parts. -/
def cmpPre (a b : List Char) : Ordering :=
  match a, b with
  | [], [] => .eq
  | [], _ :: _ => .gt
  | _ :: _, [] => .lt
  | x :: xs, y :: ys => cmpPreList (splitOnChar '.' (x :: xs)) (splitOnChar '.' (y :: ys))

structure GoVersion where
  segments : List Nat
  pre : List Char
  deriving DecidableEq

def cmpGoVersion (a b : GoVersion) : Ordering :=
  match cmpSegs a.segments b.segments with
  | .eq => cmpPre a.pre b.pre
  | o => o

/-- The Check of the go-version constraint ">= bound". -/
def goVersionAtLeast (a bound : GoVersion) : Bool :=
  match cmpGoVersion a bound with
  | .lt => false
  | _ => true

/-- go-version NewVersion on the shapes occurring in release manifests:
an optional leading v, a dotted all-numeric core, an optional nonempty
prerelease after the first dash, ignored build metadata after a plus.
A malformed core or an empty prerelease is a parse error (none). -/
def parseGoVersion (s : String) : Option GoVersion :=
  let cs := s.toList
  let cs := match cs with
    | 'v' :: rest => rest
    | other => other
  let cs := cs.takeWhile (· != '+')
  let core := cs.takeWhile (· != '-')
  let hasDash := cs.any (· == '-')
  let pre := if hasDash then (cs.dropWhile (· != '-')).drop 1 else []
  let segs := splitOnChar '.' core
  if segs.all isNumericId && (!hasDash || !pre.isEmpty) then
    some ⟨segs.map digitsVal, pre⟩
  else none

/-- The fixed Nomad manifest-format boundary version 0.7.0-beta1 from
install.go line 383. -/
def nomadBoundary : GoVersion := ⟨[0, 7, 0], "beta1".toList⟩

/- ### Filesystem model

An association list from absolute path to entry, first match wins; a real
filesystem has one entry per path and removal makes the path absent, which
the model matches by removing every pair at the path.  Directory-creation
of intermediate parents is omitted: no claim consults a strict prefix of a
path the code creates. -/

inductive Entry where
  | dir
  | file
  | symlink (target : String)
  deriving DecidableEq

abbrev FS := List (String × Entry)

def fsLookup : FS → String → Option Entry
  | [], _ => none
  | (q, e) :: rest, p => if p = q then some e else fsLookup rest p

def pathExists (fs : FS) (p : String) : Bool := (fsLookup fs p).isSome

def mkdirAll (fs : FS) (p : String) : FS := (p, Entry.dir) :: fs

def addFile (fs : FS) (p : String) : FS := (p, Entry.file) :: fs

def addSymlink (fs : FS) (p target : String) : FS := (p, Entry.symlink target) :: fs

def fsRemove (fs : FS) (p : String) : FS := fs.filter (fun e => e.1 != p)

/-- Number of entries present at a path (used to state that exactly one
bin-path entry exists after a switch). -/
def countAt (fs : FS) (p : String) : Nat := (fs.filter (fun e => e.1 == p)).length

/- ### Path layout (helpers.go, install.go, use.go) -/

def hvmHome (userHome : String) : String := userHome ++ "/.hvm"

/-- The per-version install directory <home>/.hvm/<tool>/<version>
(targetPath in installBinary, fullPath in IsInstalledVersion). -/
def versionDirPath (userHome binary ver : String) : String :=
  hvmHome userHome ++ "/" ++ binary ++ "/" ++ ver

/-- The executable location <home>/.hvm/<tool>/<version>/<tool>
(installPath in installBinary, srcPath in useBinary). -/
def binaryPath (userHome binary ver : String) : String :=
  versionDirPath userHome binary ver ++ "/" ++ binary

/-- The fixed bin path <home>/bin/<tool> (destPath in useBinary). -/
def binDestPath (userHome binary : String) : String :=
  userHome ++ "/bin/" ++ binary

/-- helpers.go IsInstalledVersion: stat of the version directory
<home>/.hvm/<tool>/<version>; a successful stat yields true, a
does-not-exist error yields false.  Note the executable name is not part
of the path checked.  The log-file and home-directory setup the Go code
performs first touches only <home>/.hvm and <home>/.hvm/hvm.log and is
omitted. -/
def isInstalledVersion (fs : FS) (userHome binary checkVersion : String) : Bool :=
  pathExists fs (versionDirPath userHome binary checkVersion)

/- ### HTML scan and version validation (helpers.go ValidateVersion)

The golang.org/x/net/html tokenizer is modelled as a token list: start
tags carry the tag name, other data-bearing tokens (text, end tags) carry
their data, and the error token marks end of document or a parse error.
Running off the end of the list behaves like the error token, as the real
tokenizer keeps yielding ErrorToken at end of input. -/

inductive HTok where
  | err
  | startTag (data : String)
  | text (data : String)
  deriving DecidableEq

def tokData : HTok → String
  | .err => ""
  | .startTag s => s
  | .text s => s

/-- The floor version string at which the scan in ValidateVersion stops
(helpers.go line 534). -/
def floorVersion : String := "0.1.0"

/-- The anchor-scanning loop of ValidateVersion: on a start tag a, read
the next token, strip the tool-name underscore prefix from its data, skip
the parent-directory entry, append the version, and stop successfully
once the floor version has been appended.  Returns the accumulated
versions in document order and whether the floor was reached; reaching
the error token or the end of input stops the scan unsuccessfully. -/
def scanVersions (binary : String) : List HTok → List String → List String × Bool
  | [], acc => (acc.reverse, false)
  | .err :: _, acc => (acc.reverse, false)
  | .text _ :: rest, acc => scanVersions binary rest acc
  | [.startTag t], acc =>
    if t = "a" then
      (("" :: acc).reverse, false)
    else (acc.reverse, false)
  | .startTag t :: nxt :: rest, acc =>
    if t = "a" then
      let ver := trimPrefixS (tokData nxt) (binary ++ "_")
      if ver = "../" then scanVersions binary rest acc
      else if ver = floorVersion then ((ver :: acc).reverse, true)
      else scanVersions binary rest (ver :: acc)
    else scanVersions binary (nxt :: rest) acc

def scanVersionsTop (binary : String) (toks : List HTok) : List String × Bool :=
  scanVersions binary toks []

/-- helpers.go ValidateVersion, over a tokenized listing: if the scan loop
exits because the error token arrived before the floor version, the
function returns false (with a nil error) without consulting what was
accumulated; if the floor was reached, membership of the requested
version in the accumulated list is tested by exact string equality. -/
def validateVersion (binary binaryVersion : String) (toks : List HTok) : Bool :=
  match scanVersionsTop binary toks with
  | (_, false) => false
  | (vs, true) => memberS binaryVersion vs

/-- helpers.go GetAllVersions: the version-enumeration helper in the
source is an unimplemented stub returning the constant "wow". -/
def getAllVersions (_checkBinary : String) : String := "wow"

/-- Modelled from the spec: AllVersions(tool) — absent from src as a real
implementation (GetAllVersions is the stub above); the spec describes it
as the anchor scan that accumulates versions until the floor and, when
the document ends before the floor, non-fatally returns whatever was
accumulated.  The scan core is the one embedded in ValidateVersion. -/
def allVersionsSpec (binary : String) (toks : List HTok) : List String :=
  (scanVersionsTop binary toks).1

/-- A well-formed directory index: one anchor start tag followed by its
visible text per entry. -/
def mkListing : List String → List HTok
  | [] => []
  | e :: es => HTok.startTag "a" :: HTok.text e :: mkListing es

/-- The spec-level description of what the scan accumulates over the
entries of a well-formed listing: strip the tool-name prefix, skip the
parent-directory entry, stop (successfully) once the floor version has
been taken. -/
def scanSpecPair (binary : String) : List String → List String × Bool
  | [] => ([], false)
  | e :: es =>
    let ver := trimPrefixS e (binary ++ "_")
    if ver = "../" then scanSpecPair binary es
    else if ver = floorVersion then ([ver], true)
    else (ver :: (scanSpecPair binary es).1, (scanSpecPair binary es).2)

/- ### Checksum manifest processing (install.go installBinary lines 370-405)

A fetched SHA256SUMS document is given as its scanned lines, each line as
the list of its whitespace-separated fields.  The digest map is a list of
(filename, digest) pairs with prepend-insert; the first match on lookup is
the most recent insert, which matches Go map overwrite semantics. -/

def shaInsert (m : List (String × String)) (k v : String) : List (String × String) :=
  (k, v) :: m

def mapFind : List (String × String) → String → Option String
  | [], _ => none
  | (k, d) :: rest, key => if key = k then some d else mapFind rest key

inductive ShaMapResult where
  | ok (m : List (String × String))
  | verr
  | crash
  deriving DecidableEq

/-- One iteration of the scanner loop.  A line of exactly two fields with
binary nomad parses the desired version (a parse failure aborts the
install with an error) and inserts the filename keyed per the
0.7.0-beta1 constraint: trimmed of the "./" cutset at or above the
boundary, as-is below it.  Every line is then also inserted as-is by the
unconditional statement at install.go line 400, which indexes s[1] and
panics on a line of fewer than two fields. -/
def shaLineStep (name ver : String) (r : ShaMapResult) (s : List String) : ShaMapResult :=
  match r with
  | .verr => .verr
  | .crash => .crash
  | .ok m =>
    match s with
    | [] => .crash
    | [_] => .crash
    | d :: fname :: rest =>
      if rest.isEmpty && name = "nomad" then
        match parseGoVersion ver with
        | none => .verr
        | some gv =>
          let m1 := if goVersionAtLeast gv nomadBoundary then
            shaInsert m (trimDotSlash fname) d
          else
            shaInsert m fname d
          .ok (shaInsert m1 fname d)
      else
        .ok (shaInsert m fname d)

def buildFileSha (name ver : String) (lines : List (List String)) : ShaMapResult :=
  lines.foldl (shaLineStep name ver) (.ok [])

/- ### installBinary (install.go lines 322-446) -/

/-- The tools of the supported-binaries switch at install.go line 349. -/
def supportedTools : List String :=
  ["consul", "nomad", "packer", "terraform", "vagrant", "vault"]

inductive InstallPhase where
  | emptyName
  | latestResolve
  | unsupportedBinary
  | manifestFetch
  | manifestVersionParse
  | downloadVerify
  deriving DecidableEq

inductive InstallOutcome where
  | ok
  | err (p : InstallPhase)
  | crash
  deriving DecidableEq

/-- The environment an install invocation observes over the network:
the latest-version resolution result, the fetched manifest document (none
is a fetch failure), and the SHA-256 digest of the bytes the release
server serves for the requested platform archive. -/
structure InstallEnv where
  latestVersion : Option String
  manifestLines : Option (List (List String))
  archiveDigest : String

/-- Modelled from the spec: the archive download step is delegated to the
external go-getter library (getter.GetFile at install.go line 433), which
is not part of this repository.  Per the spec and the in-source comment,
it verifies the downloaded bytes against the expected digest embedded in
the request before reporting success, and a mismatch is a fatal download
error that leaves no installed artifact at the destination. -/
def getterGetFile (fs : FS) (installPath expectedSha actualSha : String) : Bool × FS :=
  if actualSha = expectedSha then (true, addFile fs installPath) else (false, fs)

/-- install.go installBinary: reject an empty name, resolve "latest",
switch on the supported tools, create the version directory if absent,
fetch and scan the SHA256SUMS manifest into the digest map, look up the
platform archive filename (a miss yields the Go map zero value ""), and
download via go-getter with the expected digest embedded. -/
def installBinary (fs : FS) (userHome name ver osName arch : String)
    (env : InstallEnv) : InstallOutcome × FS :=
  if name = "" then (.err .emptyName, fs)
  else
    match (if ver = "latest" then env.latestVersion else some ver) with
    | none => (.err .latestResolve, fs)
    | some v =>
      if memberS name supportedTools then
        let targetPath := versionDirPath userHome name v
        let fs1 := if pathExists fs targetPath then fs else mkdirAll fs targetPath
        match env.manifestLines with
        | none => (.err .manifestFetch, fs1)
        | some lines =>
          match buildFileSha name v lines with
          | .crash => (.crash, fs1)
          | .verr => (.err .manifestVersionParse, fs1)
          | .ok fileSha =>
            let pkgFilename := name ++ "_" ++ v ++ "_" ++ osName ++ "_" ++ arch ++ ".zip"
            let checkSha := (mapFind fileSha pkgFilename).getD ""
            let installPath := targetPath ++ "/" ++ name
            match getterGetFile fs1 installPath checkSha env.archiveDigest with
            | (true, fs2) => (.ok, fs2)
            | (false, fs2) => (.err .downloadVerify, fs2)
      else (.err .unsupportedBinary, fs)

/- ### The install command surface (install.go lines 91-172) -/

inductive ArgsOutcome where
  | ok
  | okDebugInvalid
  | errArgs (msg : String)
  | exited
  | crash
  deriving DecidableEq

/-- Whether the Args result lets cobra proceed to Run: both nil returns
do, an error return or os.Exit or a panic does not. -/
def ArgsOutcome.proceeds : ArgsOutcome → Bool
  | .ok => true
  | .okDebugInvalid => true
  | _ => false

/-- installCmd.Args: fewer than one argument is an error; otherwise
args[1] is read unconditionally (out of range for a single argument).
A nonempty args[1] is validated: a ValidateVersion error exits the
process, while a false result only prints a DEBUG line — the fmt.Errorf
that would reject the version is commented out at install.go line 106 —
and the function falls through to cobra.OnlyValidArgs, which returns nil
because installCmd declares no ValidArgs. -/
def installArgs (args : List String) (fetchOk : Bool) (listing : List HTok) : ArgsOutcome :=
  if args.length < 1 then .errArgs "install requires exactly 1 argument"
  else
    match args[1]? with
    | none => .crash
    | some a1 =>
      if a1 = "" then .ok
      else if !fetchOk then .exited
      else if validateVersion (args.headD "") a1 listing then .ok
      else .okDebugInvalid

inductive RunOutcome where
  | done
  | exitedAlready
  | exitedErr
  | crash
  deriving DecidableEq

/-- installCmd.Run: args[1] is read unconditionally to pick between
"latest" and the requested version, the already-installed check exits,
and otherwise installBinary runs, with any error printed and exiting
nonzero. -/
def installRun (fs : FS) (args : List String) (userHome osName arch : String)
    (env : InstallEnv) : RunOutcome × FS :=
  match args[1]? with
  | none => (.crash, fs)
  | some a1 =>
    let ver := if a1 = "" then "latest" else a1
    let name := args.headD ""
    if isInstalledVersion fs userHome name ver then (.exitedAlready, fs)
    else
      match installBinary fs userHome name ver osName arch env with
      | (.ok, fs1) => (.done, fs1)
      | (.crash, fs1) => (.crash, fs1)
      | (.err _, fs1) => (.exitedErr, fs1)

/- ### useBinary (use.go lines 315-385) -/

inductive UseOutcome where
  | ok
  | errMsg (msg : String)
  | exited
  deriving DecidableEq

/-- What the use invocation observes over the network: whether the
releases-listing fetch in ValidateVersion succeeded, and the tokenized
listing document for the tool. -/
structure UseEnv where
  fetchOk : Bool
  listing : List HTok

/-- use.go useBinary: reject an empty name or version, exit on a
ValidateVersion error or a false result, exit when the version is not
installed, then handle the bin-path entry: an existing symlink is
removed and replaced, an existing non-symlink aborts with a conflict
error naming the path, and an absent entry is simply created.  The
os.Symlink return value is ignored by the source (the err it tests is
stale), so symlink creation is modelled as taking effect. -/
def useBinary (fs : FS) (userHome b v : String) (env : UseEnv) : UseOutcome × FS :=
  if b = "" then
    (.errMsg "use: unknown binary; please specify binary name as first argument", fs)
  else if v = "" then
    (.errMsg "use: unknown binary version; please specify version with the version flag", fs)
  else if !env.fetchOk then (.exited, fs)
  else if !validateVersion b v env.listing then (.exited, fs)
  else if !isInstalledVersion fs userHome b v then (.exited, fs)
  else
    let srcPath := binaryPath userHome b v
    let destPath := binDestPath userHome b
    match fsLookup fs destPath with
    | some (Entry.symlink _) => (.ok, addSymlink (fsRemove fs destPath) destPath srcPath)
    | some _ =>
      (.errMsg ("path " ++ destPath ++
        " exists and is not a symbolic link created by hvm\nhvm needs your help to resolve this problem; please inspect and move "
        ++ destPath), fs)
    | none => (.ok, addSymlink fs destPath srcPath)

/- ### Concrete fixtures used by counterexamples and witnesses -/

/-- A releases listing that ends before the floor version 0.1.0 appears. -/
def docNoFloor : List HTok :=
  [.startTag "html", .text "x",
   .startTag "a", .text "../",
   .startTag "a", .text "consul_1.4.2",
   .startTag "a", .text "consul_1.3.0",
   .err]

/-- A releases listing that reaches the floor version 0.1.0. -/
def docFloor : List HTok :=
  [.startTag "a", .text "../",
   .startTag "a", .text "consul_1.4.2",
   .startTag "a", .text "consul_0.1.0",
   .err]

/-- A releases listing carrying two consul versions and reaching the
floor. -/
def docFloor2 : List HTok :=
  [.startTag "a", .text "../",
   .startTag "a", .text "consul_1.4.2",
   .startTag "a", .text "consul_1.3.0",
   .startTag "a", .text "consul_0.1.0",
   .err]

/-- A state with the consul 1.4.2 version directory present but no
executable inside it. -/
def fsDirOnly : FS := [("/h/.hvm/consul/1.4.2", Entry.dir)]

/-- A state with two consul versions installed and nothing at the bin
path. -/
def fsTwoVersions : FS :=
  [("/h/.hvm/consul/1.4.2", Entry.dir), ("/h/.hvm/consul/1.3.0", Entry.dir)]

/-- A state with consul 1.4.2 installed and a user-created regular file
sitting at the fixed bin path. -/
def fsConflict : FS :=
  [("/h/.hvm/consul/1.4.2", Entry.dir), ("/h/bin/consul", Entry.file)]

/-- A network environment in which the manifest digest for the nomad
0.8.5 platform archive disagrees with the digest of the served bytes. -/
def envChecksumFail : InstallEnv :=
  ⟨none, some [["aaaa", "nomad_0.8.5_linux_amd64.zip"]], "bbbb"⟩

/-- The matching-digest variant of the same environment. -/
def envChecksumOk : InstallEnv :=
  ⟨none, some [["aaaa", "nomad_0.8.5_linux_amd64.zip"]], "aaaa"⟩

/-- A network environment whose manifest fetch fails (as for a version
that does not exist upstream). -/
def envNoManifest : InstallEnv := ⟨none, none, ""⟩

/- ### Sanity checks of the go-version embedding -/

example : parseGoVersion "0.7.0-beta1" = some nomadBoundary := by decide

example : goVersionAtLeast ⟨[0, 6, 0], []⟩ nomadBoundary = false := by decide

example : goVersionAtLeast ⟨[0, 8, 5], []⟩ nomadBoundary = true := by decide

example : goVersionAtLeast nomadBoundary nomadBoundary = true := by decide

/- ### Helper lemmas -/

theorem memberS_eq_true_iff (v : String) (ns : List String) :
    memberS v ns = true ↔ v ∈ ns := by
  induction ns with
  | nil => simp [memberS]
  | cons n ns ih =>
    by_cases h : v = n
    · subst h; simp [memberS]
    · simp [memberS, h, ih]

theorem pathExists_iff (fs : FS) (p : String) :
    pathExists fs p = true ↔ ∃ e, (p, e) ∈ fs := by
  induction fs with
  | nil => simp [pathExists, fsLookup]
  | cons hd tl ih =>
    obtain ⟨q, e⟩ := hd
    by_cases h : p = q
    · subst h
      simp [pathExists, fsLookup]
    · simp only [pathExists, fsLookup, if_neg h] at ih ⊢
      rw [ih]
      constructor
      · rintro ⟨e1, he⟩
        exact ⟨e1, List.mem_cons_of_mem _ he⟩
      · rintro ⟨e1, he⟩
        rcases List.mem_cons.mp he with h1 | h2
        · exact absurd (congrArg Prod.fst h1) h
        · exact ⟨e1, h2⟩

theorem fsLookup_cons_ne (fs : FS) (q : String) (e : Entry) (p : String) (h : p ≠ q) :
    fsLookup ((q, e) :: fs) p = fsLookup fs p := by
  simp [fsLookup, h]

theorem fsLookup_addSymlink_self (fs : FS) (p t : String) :
    fsLookup (addSymlink fs p t) p = some (Entry.symlink t) := by
  simp [addSymlink, fsLookup]

theorem fsLookup_fsRemove_ne (fs : FS) (p q : String) (h : q ≠ p) :
    fsLookup (fsRemove fs p) q = fsLookup fs q := by
  induction fs with
  | nil => rfl
  | cons hd tl ih =>
    obtain ⟨r, e⟩ := hd
    by_cases hr : r = p
    · subst hr
      have : q ≠ r := h
      simp [fsRemove, List.filter_cons, fsLookup, this] at ih ⊢
      exact ih
    · by_cases hq : q = r
      · subst hq
        simp [fsRemove, List.filter_cons, hr, fsLookup]
      · simp [fsRemove, List.filter_cons, hr, fsLookup, hq] at ih ⊢
        exact ih

theorem countAt_fsRemove (fs : FS) (p : String) : countAt (fsRemove fs p) p = 0 := by
  induction fs with
  | nil => rfl
  | cons hd tl ih =>
    by_cases h : hd.1 = p
    · simp [fsRemove, countAt, List.filter_cons, h, ih]
    · simp [fsRemove, countAt, List.filter_cons, h, ih]

theorem countAt_cons_self (fs : FS) (p : String) (e : Entry) :
    countAt ((p, e) :: fs) p = countAt fs p + 1 := by
  simp [countAt, List.filter_cons]

theorem countAt_eq_zero_of_lookup_none (fs : FS) (p : String)
    (h : fsLookup fs p = none) : countAt fs p = 0 := by
  induction fs with
  | nil => rfl
  | cons hd tl ih =>
    obtain ⟨q, e⟩ := hd
    by_cases hq : p = q
    · subst hq
      simp [fsLookup] at h
    · simp only [fsLookup, if_neg hq] at h
      have hne : q ≠ p := fun hx => hq hx.symm
      simpa [countAt, List.filter_cons, hne] using ih h

theorem scanVersions_mkListing (binary : String) (es : List String) (acc : List String) :
    scanVersions binary (mkListing es) acc =
      (acc.reverse ++ (scanSpecPair binary es).1, (scanSpecPair binary es).2) := by
  induction es generalizing acc with
  | nil => simp [mkListing, scanVersions, scanSpecPair]
  | cons e es ih =>
    simp only [mkListing, scanVersions, scanSpecPair, tokData]
    by_cases h1 : trimPrefixS e (binary ++ "_") = "../"
    · simp [h1, ih]
    · by_cases h2 : trimPrefixS e (binary ++ "_") = floorVersion
      · have h3 : ¬(floorVersion = "../") := by decide
        simp [h1, h2, h3]
      · simp [h1, h2, ih, List.append_assoc]

/-- When the scan loop in ValidateVersion exits via the error-token arm
(floor never reached), the validator answers false without testing
membership. -/
theorem validateVersion_false_of_no_floor (binary v : String) (toks : List HTok)
    (h : (scanVersionsTop binary toks).2 = false) :
    validateVersion binary v toks = false := by
  unfold validateVersion
  rcases hsc : scanVersionsTop binary toks with ⟨vs, bl⟩
  rw [hsc] at h
  simp only at h
  subst h
  rfl

theorem useBinary_switch_core (fs : FS) (userHome b v : String) (env : UseEnv)
    (hb : b ≠ "") (hv : v ≠ "") (hf : env.fetchOk = true)
    (hval : validateVersion b v env.listing = true)
    (hinst : isInstalledVersion fs userHome b v = true)
    (hcur : fsLookup fs (binDestPath userHome b) = none ∨
      ∃ t, fsLookup fs (binDestPath userHome b) = some (Entry.symlink t)) :
    (useBinary fs userHome b v env).1 = UseOutcome.ok ∧
    fsLookup (useBinary fs userHome b v env).2 (binDestPath userHome b) =
      some (Entry.symlink (binaryPath userHome b v)) ∧
    countAt (useBinary fs userHome b v env).2 (binDestPath userHome b) = 1 ∧
    (∀ q, q ≠ binDestPath userHome b →
      fsLookup (useBinary fs userHome b v env).2 q = fsLookup fs q) := by
  rcases hcur with hnone | ⟨t, hsym⟩
  · have hred : useBinary fs userHome b v env =
        (UseOutcome.ok,
          addSymlink fs (binDestPath userHome b) (binaryPath userHome b v)) := by
      simp [useBinary, hb, hv, hf, hval, hinst, hnone]
    rw [hred]
    refine ⟨rfl, fsLookup_addSymlink_self .., ?_, ?_⟩
    · show countAt ((binDestPath userHome b,
        Entry.symlink (binaryPath userHome b v)) :: fs) (binDestPath userHome b) = 1
      rw [countAt_cons_self, countAt_eq_zero_of_lookup_none fs _ hnone]
    · intro q hq
      exact fsLookup_cons_ne fs _ _ q hq
  · have hred : useBinary fs userHome b v env =
        (UseOutcome.ok,
          addSymlink (fsRemove fs (binDestPath userHome b)) (binDestPath userHome b)
            (binaryPath userHome b v)) := by
      simp [useBinary, hb, hv, hf, hval, hinst, hsym]
    rw [hred]
    refine ⟨rfl, fsLookup_addSymlink_self .., ?_, ?_⟩
    · show countAt ((binDestPath userHome b,
        Entry.symlink (binaryPath userHome b v)) :: fsRemove fs (binDestPath userHome b))
          (binDestPath userHome b) = 1
      rw [countAt_cons_self, countAt_fsRemove]
    · intro q hq
      have hc := fsLookup_cons_ne (fsRemove fs (binDestPath userHome b))
        (binDestPath userHome b) (Entry.symlink (binaryPath userHome b v)) q hq
      exact hc.trans (fsLookup_fsRemove_ne fs (binDestPath userHome b) q hq)

/- ### Claim theorems -/

/-- Claim C1, counterexample: a state in which the consul 1.4.2 version
directory exists while no executable named consul exists inside it;
IsInstalledVersion nevertheless returns true, refuting the claim that it
returns true if and only if the executable itself exists. -/
theorem isInstalled_checks_dir_not_exe_cex :
    isInstalledVersion fsDirOnly "/h" "consul" "1.4.2" = true ∧
    pathExists fsDirOnly (binaryPath "/h" "consul" "1.4.2") = false := by
  decide

/-- Claim C1, amended: IsInstalledVersion(tool, version) returns true if
and only if an entry exists at the version directory
<home>/.hvm/<tool>/<version> — not at the executable path below it — and
it consults nothing but that one filesystem path (no cache or metadata
file). -/
theorem isInstalled_iff_version_dir_entry (fs : FS) (userHome binary ver : String) :
    isInstalledVersion fs userHome binary ver = true ↔
      ∃ e, (versionDirPath userHome binary ver, e) ∈ fs := by
  unfold isInstalledVersion
  exact pathExists_iff fs (versionDirPath userHome binary ver)

/-- Claim C2, code bug: an install of nomad 0.8.5 whose manifest digest
(aaaa) disagrees with the digest of the served archive bytes (bbbb) fails
at the download-verification step and leaves no executable at
<home>/.hvm/nomad/0.8.5/nomad, yet IsInstalledVersion afterwards returns
true — because installBinary created the version directory before the
download and IsInstalledVersion checks only that directory.  The claim
(and the spec) require it to return false.  The successful-install
direction of the claim does hold, as the final two conjuncts record. -/
theorem checksum_failure_leaves_isInstalled_true :
    (installBinary [] "/h" "nomad" "0.8.5" "linux" "amd64" envChecksumFail).1 =
      InstallOutcome.err InstallPhase.downloadVerify ∧
    pathExists (installBinary [] "/h" "nomad" "0.8.5" "linux" "amd64" envChecksumFail).2
      (binaryPath "/h" "nomad" "0.8.5") = false ∧
    isInstalledVersion
      (installBinary [] "/h" "nomad" "0.8.5" "linux" "amd64" envChecksumFail).2
      "/h" "nomad" "0.8.5" = true ∧
    (installBinary [] "/h" "nomad" "0.8.5" "linux" "amd64" envChecksumOk).1 =
      InstallOutcome.ok ∧
    isInstalledVersion
      (installBinary [] "/h" "nomad" "0.8.5" "linux" "amd64" envChecksumOk).2
      "/h" "nomad" "0.8.5" = true := by
  decide

/-- Claim C3, counterexample: over a listing that ends before the floor
version, 1.4.2 is in the accumulated version set, yet ValidateVersion
reports it invalid — the membership test is skipped because the scan
returns through the error-token arm. -/
theorem validate_misses_accumulated_cex :
    "1.4.2" ∈ allVersionsSpec "consul" docNoFloor ∧
    validateVersion "consul" "1.4.2" docNoFloor = false := by
  decide

/-- Claim C3, amended: when the scan reaches the floor version,
ValidateVersion returns true exactly for the versions in the accumulated
set, decided by exact string equality; when the document ends before the
floor, ValidateVersion returns false regardless of the accumulated
set. -/
theorem validate_iff_member_when_floor_reached (binary v : String) (toks : List HTok) :
    ((scanVersionsTop binary toks).2 = true →
      (validateVersion binary v toks = true ↔ v ∈ allVersionsSpec binary toks)) ∧
    ((scanVersionsTop binary toks).2 = false →
      validateVersion binary v toks = false) := by
  constructor
  · intro hfloor
    unfold validateVersion allVersionsSpec
    rcases hsc : scanVersionsTop binary toks with ⟨vs, bl⟩
    rw [hsc] at hfloor
    simp only at hfloor
    subst hfloor
    simpa using memberS_eq_true_iff v vs
  · exact validateVersion_false_of_no_floor binary v toks

/-- Claim C3 witness: the amended equivalence evaluated on a concrete
listing that reaches the floor. -/
theorem validate_iff_member_witness :
    validateVersion "consul" "1.4.2" docFloor = true ↔
      "1.4.2" ∈ allVersionsSpec "consul" docFloor :=
  (validate_iff_member_when_floor_reached "consul" "1.4.2" docFloor).1 (by decide)

/-- Claim C4: when the entry at the fixed bin path <home>/bin/<tool>
exists and is not a symbolic link, useBinary fails with a conflict error
whose message names that path, and the filesystem — in particular the
pre-existing entry — is left completely unchanged. -/
theorem use_conflict_aborts_unchanged (fs : FS) (userHome b v : String) (env : UseEnv)
    (e : Entry)
    (hb : b ≠ "") (hv : v ≠ "") (hf : env.fetchOk = true)
    (hval : validateVersion b v env.listing = true)
    (hinst : isInstalledVersion fs userHome b v = true)
    (hl : fsLookup fs (binDestPath userHome b) = some e)
    (hns : ∀ t, e ≠ Entry.symlink t) :
    useBinary fs userHome b v env =
      (UseOutcome.errMsg ("path " ++ binDestPath userHome b ++
        " exists and is not a symbolic link created by hvm\nhvm needs your help to resolve this problem; please inspect and move "
        ++ binDestPath userHome b), fs) := by
  cases e with
  | symlink t => exact absurd rfl (hns t)
  | dir => simp [useBinary, hb, hv, hf, hval, hinst, hl]
  | file => simp [useBinary, hb, hv, hf, hval, hinst, hl]

/-- Claim C4 witness: the conflict result evaluated on a concrete state
with a regular file at the bin path. -/
theorem use_conflict_witness :
    useBinary fsConflict "/h" "consul" "1.4.2" ⟨true, docFloor⟩ =
      (UseOutcome.errMsg ("path " ++ binDestPath "/h" "consul" ++
        " exists and is not a symbolic link created by hvm\nhvm needs your help to resolve this problem; please inspect and move "
        ++ binDestPath "/h" "consul"), fsConflict) :=
  use_conflict_aborts_unchanged fsConflict "/h" "consul" "1.4.2" ⟨true, docFloor⟩
    Entry.file (by decide) (by decide) rfl (by decide) (by decide) (by decide)
    (fun _ h => Entry.noConfusion h)

/-- Claim C5: per tool, starting from Unset (no entry at the bin path),
useBinary for V1 succeeds and leaves the bin path a symlink resolving to
<home>/.hvm/T/V1/T; a subsequent useBinary for V2 removes that link and
creates a new one, leaving exactly one entry at the bin path, a symlink
resolving to <home>/.hvm/T/V2/T and not to V1. -/
theorem use_switch_replaces_link (fs : FS) (userHome b v1 v2 : String)
    (env1 env2 : UseEnv)
    (hb : b ≠ "") (h1 : v1 ≠ "") (h2 : v2 ≠ "")
    (hf1 : env1.fetchOk = true) (hf2 : env2.fetchOk = true)
    (hval1 : validateVersion b v1 env1.listing = true)
    (hval2 : validateVersion b v2 env2.listing = true)
    (hinst1 : isInstalledVersion fs userHome b v1 = true)
    (hinst2 : isInstalledVersion fs userHome b v2 = true)
    (hdisj : versionDirPath userHome b v2 ≠ binDestPath userHome b)
    (hunset : fsLookup fs (binDestPath userHome b) = none) :
    (useBinary fs userHome b v1 env1).1 = UseOutcome.ok ∧
    fsLookup (useBinary fs userHome b v1 env1).2 (binDestPath userHome b) =
      some (Entry.symlink (binaryPath userHome b v1)) ∧
    (useBinary (useBinary fs userHome b v1 env1).2 userHome b v2 env2).1 =
      UseOutcome.ok ∧
    fsLookup (useBinary (useBinary fs userHome b v1 env1).2 userHome b v2 env2).2
      (binDestPath userHome b) = some (Entry.symlink (binaryPath userHome b v2)) ∧
    countAt (useBinary (useBinary fs userHome b v1 env1).2 userHome b v2 env2).2
      (binDestPath userHome b) = 1 := by
  obtain ⟨hok1, hlink1, _, hpres1⟩ := useBinary_switch_core fs userHome b v1 env1
    hb h1 hf1 hval1 hinst1 (Or.inl hunset)
  have hinst2' : isInstalledVersion (useBinary fs userHome b v1 env1).2 userHome b v2 = true := by
    unfold isInstalledVersion pathExists at hinst2 ⊢
    rw [hpres1 (versionDirPath userHome b v2) hdisj]
    exact hinst2
  obtain ⟨hok2, hlink2, hcount2, _⟩ := useBinary_switch_core
    (useBinary fs userHome b v1 env1).2 userHome b v2 env2
    hb h2 hf2 hval2 hinst2' (Or.inr ⟨binaryPath userHome b v1, hlink1⟩)
  exact ⟨hok1, hlink1, hok2, hlink2, hcount2⟩

/-- Claim C5 witness: the two-step switch evaluated on a concrete state
with consul 1.4.2 and 1.3.0 installed and the bin path unset. -/
theorem use_switch_witness :
    (useBinary fsTwoVersions "/h" "consul" "1.4.2" ⟨true, docFloor2⟩).1 = UseOutcome.ok ∧
    fsLookup (useBinary fsTwoVersions "/h" "consul" "1.4.2" ⟨true, docFloor2⟩).2
      (binDestPath "/h" "consul") =
      some (Entry.symlink (binaryPath "/h" "consul" "1.4.2")) ∧
    (useBinary (useBinary fsTwoVersions "/h" "consul" "1.4.2" ⟨true, docFloor2⟩).2
      "/h" "consul" "1.3.0" ⟨true, docFloor2⟩).1 = UseOutcome.ok ∧
    fsLookup (useBinary (useBinary fsTwoVersions "/h" "consul" "1.4.2" ⟨true, docFloor2⟩).2
      "/h" "consul" "1.3.0" ⟨true, docFloor2⟩).2 (binDestPath "/h" "consul") =
      some (Entry.symlink (binaryPath "/h" "consul" "1.3.0")) ∧
    countAt (useBinary (useBinary fsTwoVersions "/h" "consul" "1.4.2" ⟨true, docFloor2⟩).2
      "/h" "consul" "1.3.0" ⟨true, docFloor2⟩).2 (binDestPath "/h" "consul") = 1 :=
  use_switch_replaces_link fsTwoVersions "/h" "consul" "1.4.2" "1.3.0"
    ⟨true, docFloor2⟩ ⟨true, docFloor2⟩
    (by decide) (by decide) (by decide) rfl rfl
    (by decide) (by decide) (by decide) (by decide) (by decide) (by decide)

/-- Claim C6: when installing nomad, a well-formed manifest line (digest,
filename) is keyed with the "./" cutset trimmed exactly when the version
is at or above the fixed 0.7.0-beta1 boundary — the unconditional insert
at install.go line 400 additionally keys the raw filename in both cases,
so below the boundary the key set holds the filename exactly as it
appears and nothing else.  For the boundary itself the trim is the
stripping of the leading relative-path prefix, as the concrete conjunct
shows; version 0.6.0 sits below the boundary and an install of nomad
0.6.0 against a manifest keying the platform filename as-is still finds
the digest and succeeds. -/
theorem nomad_manifest_keying (ver : String) (gv : GoVersion)
    (hp : parseGoVersion ver = some gv) (d f : String) :
    (buildFileSha "nomad" ver [[d, f]] =
      ShaMapResult.ok (if goVersionAtLeast gv nomadBoundary then
          [(f, d), (trimDotSlash f, d)]
        else
          [(f, d), (f, d)])) ∧
    trimDotSlash "./nomad_0.6.0_linux_amd64.zip" = "nomad_0.6.0_linux_amd64.zip" ∧
    parseGoVersion "0.6.0" = some ⟨[0, 6, 0], []⟩ ∧
    goVersionAtLeast ⟨[0, 6, 0], []⟩ nomadBoundary = false ∧
    (installBinary [] "/h" "nomad" "0.6.0" "linux" "amd64"
      ⟨none, some [["abc", "nomad_0.6.0_linux_amd64.zip"]], "abc"⟩).1 =
      InstallOutcome.ok := by
  refine ⟨?_, by decide, by decide, by decide, by decide⟩
  unfold buildFileSha
  simp only [List.foldl_cons, List.foldl_nil]
  unfold shaLineStep
  simp only [List.isEmpty_nil, Bool.true_and, hp]
  by_cases h : goVersionAtLeast gv nomadBoundary
  · simp [h, shaInsert]
  · simp [h, shaInsert]

/-- Claim C6 witness: the keying characterization evaluated at version
0.8.5 (above the boundary) on a "./"-prefixed manifest filename. -/
theorem nomad_manifest_keying_witness :
    (buildFileSha "nomad" "0.8.5" [["aaaa", "./nomad_0.8.5_linux_amd64.zip"]] =
      ShaMapResult.ok (if goVersionAtLeast ⟨[0, 8, 5], []⟩ nomadBoundary then
          [("./nomad_0.8.5_linux_amd64.zip", "aaaa"),
           (trimDotSlash "./nomad_0.8.5_linux_amd64.zip", "aaaa")]
        else
          [("./nomad_0.8.5_linux_amd64.zip", "aaaa"),
           ("./nomad_0.8.5_linux_amd64.zip", "aaaa")])) ∧
    trimDotSlash "./nomad_0.6.0_linux_amd64.zip" = "nomad_0.6.0_linux_amd64.zip" ∧
    parseGoVersion "0.6.0" = some ⟨[0, 6, 0], []⟩ ∧
    goVersionAtLeast ⟨[0, 6, 0], []⟩ nomadBoundary = false ∧
    (installBinary [] "/h" "nomad" "0.6.0" "linux" "amd64"
      ⟨none, some [["abc", "nomad_0.6.0_linux_amd64.zip"]], "abc"⟩).1 =
      InstallOutcome.ok :=
  nomad_manifest_keying "0.8.5" ⟨[0, 8, 5], []⟩ (by decide) "aaaa"
    "./nomad_0.8.5_linux_amd64.zip"

/-- Claim C7: when the computed platform-archive filename has no entry in
the digest mapping, the lookup yields the empty string (the Go map zero
value) instead of an immediate error, and the install fails only at the
download step, where the (spec-modelled go-getter) fetch verifies the
served bytes against the embedded expected digest before reporting
success. -/
theorem missing_manifest_entry_defers (fs : FS)
    (userHome name ver osName arch : String) (env : InstallEnv)
    (lines : List (List String)) (m : List (String × String))
    (hne : name ≠ "") (hver : ver ≠ "latest")
    (hname : memberS name supportedTools = true)
    (hman : env.manifestLines = some lines)
    (hbuild : buildFileSha name ver lines = ShaMapResult.ok m)
    (hmiss : mapFind m (name ++ "_" ++ ver ++ "_" ++ osName ++ "_" ++ arch ++ ".zip") =
      none)
    (hdig : env.archiveDigest ≠ "") :
    (mapFind m (name ++ "_" ++ ver ++ "_" ++ osName ++ "_" ++ arch ++ ".zip")).getD ""
        = "" ∧
    (installBinary fs userHome name ver osName arch env).1 =
      InstallOutcome.err InstallPhase.downloadVerify := by
  constructor
  · rw [hmiss]
    rfl
  · simp [installBinary, hne, hver, hname, hman, hbuild, hmiss, getterGetFile, hdig]

/-- Claim C7 witness: the deferred failure evaluated on a concrete
manifest that lacks the platform archive entry. -/
theorem missing_manifest_entry_witness :
    (mapFind [("other.zip", "aaa")]
      ("consul" ++ "_" ++ "1.4.2" ++ "_" ++ "linux" ++ "_" ++ "amd64" ++ ".zip")).getD ""
        = "" ∧
    (installBinary [] "/h" "consul" "1.4.2" "linux" "amd64"
      ⟨none, some [["aaa", "other.zip"]], "bbb"⟩).1 =
      InstallOutcome.err InstallPhase.downloadVerify :=
  missing_manifest_entry_defers [] "/h" "consul" "1.4.2" "linux" "amd64"
    ⟨none, some [["aaa", "other.zip"]], "bbb"⟩ [["aaa", "other.zip"]]
    [("other.zip", "aaa")]
    (by decide) (by decide) (by decide) rfl (by decide) (by decide) (by decide)

/-- Claim C8, counterexample: the only AllVersions-named function in the
source is the stub returning "wow", and the scan that actually
enumerates versions — the loop inside ValidateVersion — does not return
the versions accumulated so far when the document ends before the floor:
on this concrete listing the scan has accumulated 1.4.2 and 1.3.0, the
floor was not reached, and the enclosing validation discards the
accumulation and answers false even for an accumulated member. -/
theorem allVersions_eof_discarded_cex :
    getAllVersions "consul" = "wow" ∧
    scanVersionsTop "consul" docNoFloor = (["1.4.2", "1.3.0"], false) ∧
    "1.4.2" ∈ allVersionsSpec "consul" docNoFloor ∧
    validateVersion "consul" "1.4.2" docNoFloor = false := by
  decide

/-- Claim C8, amended: the scan embedded in ValidateVersion walks a
well-formed listing in document order, strips the tool-name prefix,
skips the parent-directory entry and accumulates versions until the
floor version is taken, exactly as scanSpecPair describes; reaching the
end of the document before the floor raises no error, but instead of
the accumulated versions being returned, the enclosing validation
answers false. -/
theorem scan_floor_semantics (binary v : String) (es : List String)
    (toks : List HTok) :
    scanVersionsTop binary (mkListing es) = scanSpecPair binary es ∧
    ((scanVersionsTop binary toks).2 = false →
      validateVersion binary v toks = false) := by
  constructor
  · have h := scanVersions_mkListing binary es []
    simpa [scanVersionsTop] using h
  · exact validateVersion_false_of_no_floor binary v toks

/-- Claim C8 witness: the scan characterization and the end-of-document
behaviour evaluated on concrete listings. -/
theorem scan_floor_semantics_witness :
    scanVersionsTop "consul" (mkListing ["../", "consul_1.4.2"]) =
      scanSpecPair "consul" ["../", "consul_1.4.2"] ∧
    validateVersion "consul" "1.4.2" docNoFloor = false :=
  ⟨(scan_floor_semantics "consul" "1.4.2" ["../", "consul_1.4.2"] docNoFloor).1,
   (scan_floor_semantics "consul" "1.4.2" ["../", "consul_1.4.2"] docNoFloor).2
     (by decide)⟩

/-- Claim C9, code bug: a requested version that fails validation is not
surfaced as an error with a non-zero exit — installCmd.Args only prints
a DEBUG line (the fmt.Errorf rejecting the version is commented out) and
returns nil, so the command proceeds to Run and attempts the
installation; the eventual non-zero exit comes from the later
manifest-fetch failure, not from an InvalidVersion report. -/
theorem invalid_version_proceeds :
    validateVersion "consul" "9.9.9" docFloor = false ∧
    installArgs ["consul", "9.9.9"] true docFloor = ArgsOutcome.okDebugInvalid ∧
    (installArgs ["consul", "9.9.9"] true docFloor).proceeds = true ∧
    (installRun [] ["consul", "9.9.9"] "/h" "linux" "amd64" envNoManifest).1 =
      RunOutcome.exitedErr := by
  decide

/-- Claim C10: for any invocation of the install command with exactly one
argument, both installCmd.Args and installCmd.Run read argument index 1,
which is out of bounds, so the command panics instead of resolving and
installing the latest version. -/
theorem install_single_arg_crash (args : List String) (h : args.length = 1)
    (fetchOk : Bool) (listing : List HTok) (fs : FS)
    (userHome osName arch : String) (env : InstallEnv) :
    installArgs args fetchOk listing = ArgsOutcome.crash ∧
    (installRun fs args userHome osName arch env).1 = RunOutcome.crash := by
  obtain ⟨a, rfl⟩ := List.length_eq_one.mp h
  constructor
  · simp [installArgs]
  · simp [installRun]

/-- Claim C10 witness: the one-argument panic evaluated on the documented
form hvm install vault. -/
theorem install_single_arg_crash_witness :
    installArgs ["vault"] true [] = ArgsOutcome.crash ∧
    (installRun [] ["vault"] "/h" "linux" "amd64" envNoManifest).1 =
      RunOutcome.crash :=
  install_single_arg_crash ["vault"] rfl true [] [] "/h" "linux" "amd64" envNoManifest

end Hvm
